/-
Verification of the feature-scraping pipeline in `src/features/update_features.py`
(repository `manidweep/www_gitres`).

The Python source is shallowly embedded below.  Python dictionaries become
insertion-ordered association lists with Python's assignment semantics
(`pyDictInsert`: overwriting keeps the original position, new keys are
appended).  Values of type `str | None` become `Option String`.  Fallible
steps (XML parsing raising `xml.etree.ElementTree.ParseError`) become
`Except Unit`.  External collaborators (the HTTP content fetcher, `stdin`)
are parameters of the embedded functions.
-/
import Mathlib

namespace UpdateFeatures

/-! ## Python dictionary semantics -/

/-- Python `d[k] = v` on a `dict`: if `k` is already present its value is
updated in place (insertion position kept), otherwise the pair is appended. -/
def pyDictInsert {α β : Type} [DecidableEq α] (d : List (α × β)) (k : α) (v : β) :
    List (α × β) :=
  if d.any (fun p => decide (p.1 = k)) then
    d.map (fun p => if p.1 = k then (k, v) else p)
  else d ++ [(k, v)]

/-- Python `d.get(k)` / `d[k]` lookup: first (and in a real dict, only)
binding of `k`. -/
def pyGet? {α β : Type} [DecidableEq α] (d : List (α × β)) (k : α) : Option β :=
  (d.find? (fun p => decide (p.1 = k))).map (fun p => p.2)

/-- Python `k in d`. -/
def pyMem {α β : Type} [DecidableEq α] (d : List (α × β)) (k : α) : Bool :=
  d.any (fun p => decide (p.1 = k))

/-- Building a `dict` from a sequence of key/value pairs (dict comprehension
or `json.load` object construction): later bindings of the same key
silently overwrite earlier ones. -/
def pyDictOfList {α β : Type} [DecidableEq α] (l : List (α × β)) : List (α × β) :=
  l.foldl (fun d p => pyDictInsert d p.1 p.2) []

/-! ## Python string helpers -/

/-- Whitespace stripped by Python `str.strip()` (ASCII subset; the pipeline
only ever strips interactive replies). -/
def pyIsSpace (c : Char) : Bool :=
  c = ' ' ∨ c = '\t' ∨ c = '\n' ∨ c = '\r' ∨ c = '\x0b' ∨ c = '\x0c'

/-- Python `s.strip()`. -/
def pyStrip (s : String) : String :=
  String.mk (((s.data.dropWhile pyIsSpace).reverse.dropWhile pyIsSpace).reverse)

/-- Python `s.startswith(p)`. -/
def pyStartswith (s p : String) : Bool :=
  p.data.isPrefixOf s.data

/-- Python `s.split(sep, 1)[1]` for a single-character separator `/`, i.e.
the characters after the first `/`.  (Used only when a `/` is present.) -/
def pyAfterFirstSlash : List Char → List Char
  | [] => []
  | c :: rest => if c = '/' then rest else pyAfterFirstSlash rest

/-- Python f-string interpolation of a `str | None` value: `None` renders
as the four characters `None`. -/
def pyFStr : Option String → String
  | none => "None"
  | some s => s

/-! ## Comment Stripper (`clean_xml_comments`, line 17–18)

The source is

    def clean_xml_comments(xml_text):
        return re.sub(r'', '', xml_text, flags=re.DOTALL)

The substitution pattern is the *empty* regular expression: it matches the
empty string at every position, and replacing each such match with the
empty replacement string returns the input text unchanged.  The embedding
is therefore the identity function. -/
def clean_xml_comments (xml_text : String) : String :=
  xml_text

/-- Does a character list contain the four-character comment opener
`<!--`?  (Used to exhibit that `clean_xml_comments` leaves comment spans
in place.) -/
def hasCommentOpen : List Char → Bool
  | [] => false
  | c :: rest =>
    if c = '<' ∧ rest.take 3 = ['!', '-', '-'] then true else hasCommentOpen rest

/-! ## String Resolver (`resolve_string`, lines 58–66) -/

/-- A parsed string table: `name` attribute (possibly absent, i.e. Python
`None`) to text. -/
abbrev StrTable := List (Option String × String)

/-- Scan of the chain in `resolve_string`:
`for d in string_dicts: if key in d: return d[key]`, falling through to the
missing marker. -/
def scanChain (key : String) : List StrTable → String
  | [] => "<MISSING " ++ key ++ ">"
  | d :: ds => if pyMem d (some key) then (pyGet? d (some key)).getD "" else scanChain key ds

/-- `resolve_string(ref, *string_dicts)` (lines 58–66).  `not ref` is true
for Python `None` and for the empty string. -/
def resolve_string (ref : Option String) (string_dicts : List StrTable) : String :=
  match ref with
  | none => ""
  | some r =>
    if r = "" then ""
    else if pyStartswith r "@string/" = false then r
    else
      let key := String.mk (pyAfterFirstSlash r.data)
      scanChain key string_dicts

/-- §4.5 of the spec, written from its words: if `ref` is absent return the
empty string; if it does not carry the string-table sigil return it
verbatim; otherwise extract the key (the text after the sigil `@string/`)
and return the first chain table's value for it, or the missing marker
embedding the key. -/
def resolve_spec (ref : Option String) (chain : List StrTable) : String :=
  match ref with
  | none => ""
  | some r =>
    if pyStartswith r "@string/" = false then r
    else
      let key := String.mk (r.data.drop 8)
      match chain.findSome? (fun d => pyGet? d (some key)) with
      | some v => v
      | none => "<MISSING " ++ key ++ ">"

/-! ## Display Normalizer (`clean_display_text`, lines 68–71) -/

/-- Python `text.split('\\n')[0]`: the characters before the first
occurrence of the two-character sequence `\` `n` (the whole text if the
sequence does not occur). -/
def pySplitBackslashNHead : List Char → List Char
  | [] => []
  | c :: rest =>
    if c = '\\' ∧ rest.head? = some 'n' then []
    else c :: pySplitBackslashNHead rest

/-- Python `s.replace("\\'", "'")`: every (leftmost, non-overlapping)
occurrence of the two-character sequence `\` `'` replaced by `'`. -/
def pyReplaceEscapedQuote : List Char → List Char
  | [] => []
  | '\\' :: '\'' :: rest => '\'' :: pyReplaceEscapedQuote rest
  | '\\' :: rest => '\\' :: pyReplaceEscapedQuote rest
  | c :: rest => c :: pyReplaceEscapedQuote rest

/-- `clean_display_text(text)` (lines 68–71); `text` has Python type
`str | None` and `not text` is true for `None` and `""`. -/
def clean_display_text (text : Option String) : String :=
  match text with
  | none => ""
  | some t =>
    if t = "" then ""
    else String.mk (pyReplaceEscapedQuote (pySplitBackslashNHead t.data))

/-- Does a character list contain the two-character escaped-newline marker
`\` `n`? -/
def hasMarker : List Char → Bool
  | [] => false
  | c :: rest => if c = '\\' ∧ rest.head? = some 'n' then true else hasMarker rest

/-- Does a character list contain the two-character sequence `%s`?  This is
`re.search(r'%s', text)` (neither `%` nor `s` is a regex metacharacter, so
the pattern matches exactly the literal substring `%s`). -/
def containsPS : List Char → Bool
  | [] => false
  | c :: rest => if c = '%' ∧ rest.head? = some 's' then true else containsPS rest

/-! ## XML document model

`xml.etree.ElementTree` is external library code; an element is modelled by
its tag, its attribute dictionary (attribute names are written in Clark
notation `{uri}name`, as ElementTree exposes namespaced attributes), its
text and its child elements in document order.  Comments are dropped by
ElementTree's default parser and so do not appear. -/

inductive XmlElem : Type where
  | mk (tag : String) (attrs : List (String × String)) (text : Option String)
      (children : List XmlElem)

def XmlElem.tag : XmlElem → String
  | .mk t _ _ _ => t

def XmlElem.attrs : XmlElem → List (String × String)
  | .mk _ a _ _ => a

def XmlElem.text : XmlElem → Option String
  | .mk _ _ t _ => t

def XmlElem.children : XmlElem → List XmlElem
  | .mk _ _ _ c => c

/-- `element.findall(tag)`: the direct children with the given tag, in
document order. -/
def XmlElem.findall (e : XmlElem) (t : String) : List XmlElem :=
  e.children.filter (fun c => decide (c.tag = t))

/-- `element.get(attr)`. -/
def XmlElem.get (e : XmlElem) (a : String) : Option String :=
  (e.attrs.find? (fun p => decide (p.1 = a))).map (fun p => p.2)

/-- `get_android_attr(element, attr)` (lines 20–21). -/
def get_android_attr (e : XmlElem) (attr : String) : Option String :=
  e.get ("{http://schemas.android.com/apk/res/android}" ++ attr)

/-- The raw text of a fetched resource file, abstracted by its parse
outcome: `ok root` is a non-empty text that `ET.fromstring` parses to the
root element `root`; `malformed` is a non-empty text on which
`ET.fromstring` raises `ParseError`; `empty` is the empty string (falsy in
the source's `if content:` checks, and also unparseable). -/
inductive Content : Type where
  | ok (root : XmlElem)
  | malformed
  | empty

/-- Python truthiness of the fetched text. -/
def truthyC : Content → Bool
  | .empty => false
  | _ => true

/-- `ET.fromstring`: the root element of a well-formed document, raising
`ParseError` (modelled as `Except.error ()`) otherwise. -/
def ET_fromstring : Content → Except Unit XmlElem
  | .ok root => .ok root
  | _ => .error ()

/-! ## String Table Parser (`parse_strings_xml`, lines 34–36) -/

/-- The key/value pairs of the dict comprehension
`{elem.get('name'): elem.text or "" for elem in root.findall('string')}`,
in document order, before dict construction collapses duplicate names. -/
def stringEntries (root : XmlElem) : List (Option String × String) :=
  (root.findall "string").map (fun e => (e.get "name", (e.text).getD ""))

/-- `parse_strings_xml(xml_text)` (lines 34–36). -/
def parse_strings_xml (c : Content) : Except Unit StrTable :=
  match ET_fromstring c with
  | .error e => .error e
  | .ok root => .ok (pyDictOfList (stringEntries root))

/-! ## Preference descriptors and Fragment Parser -/

/-- A top-level preference descriptor (lines 101–106): the three
platform-namespaced attributes, each possibly absent. -/
structure MainPref : Type where
  key : Option String
  title_key : Option String
  summary_key : Option String
deriving DecidableEq

/-- A fragment preference descriptor (lines 47–51).  `title_key` is stored
only when truthy, so it is `some` of a non-empty string at every site the
parser produces. -/
structure FragPref : Type where
  key : Option String
  title_key : Option String
  summary_key : Option String
deriving DecidableEq

/-- A fragment category descriptor (lines 52–55). -/
structure FragCategory : Type where
  title_key : Option String
  preferences : List FragPref
deriving DecidableEq

/-- One fragment category from its element (lines 43–55): every child
element (whatever its tag) with a truthy `android:title` attribute
contributes a preference descriptor, in document order. -/
def fragCategoryOfElem (category_elem : XmlElem) : FragCategory :=
  { title_key := get_android_attr category_elem "title"
    preferences := category_elem.children.filterMap (fun pref_elem =>
      match get_android_attr pref_elem "title" with
      | none => none
      | some t =>
        if t = "" then none
        else some { key := get_android_attr pref_elem "key"
                    title_key := some t
                    summary_key := get_android_attr pref_elem "summary" }) }

/-- `parse_preference_fragment_xml(xml_text)` (lines 38–56).  The source
first applies `clean_xml_comments`, which is the identity on the raw text
(see `clean_xml_comments`). -/
def parse_preference_fragment_xml (c : Content) : Except Unit (List FragCategory) :=
  match ET_fromstring c with
  | .error e => .error e
  | .ok root => .ok ((root.findall "PreferenceCategory").map fragCategoryOfElem)

/-! ## Replacement store and the Branch Aggregator (`scrape_features`) -/

/-- The in-memory replacement store: a Python dict whose keys are the
preference `key` attributes (`str`, or `None` when the attribute is absent
— `replacements[pref_key] = ...` can insert a `None` key). -/
abbrev Repl := List (Option String × String)

/-- The interactive override prompt, per §6 of the spec:
`ask(title, key, currentSummary) -> text` (the raw reply line, before the
source's `.strip()`). -/
abbrev AskFn := String → Option String → String → String

/-- The per-branch external inputs of `scrape_features`: the fetch results
of the five fixed resource files (`None` when the fetch failed), the fetch
result of the per-category fragment file as a function of the formatted
category key (`res/xml/evolution_settings_{key}.xml`), and the interactive
prompt. -/
structure BranchInput : Type where
  main_xml : Option Content
  evolver_strings : Option Content
  settings_evolution_strings : Option Content
  settings_strings : Option Content
  settings_cm_strings : Option Content
  fragment : String → Option Content
  ask : AskFn

/-- The top-level preference descriptors (lines 100–106). -/
def main_prefs_of (main_root : XmlElem) : List MainPref :=
  (main_root.findall "Preference").map (fun pref_elem =>
    { key := get_android_attr pref_elem "key"
      title_key := get_android_attr pref_elem "title"
      summary_key := get_android_attr pref_elem "summary" })

/-- `if content: tables gets parse_strings_xml(content)` for one optional
fetched file (lines 115–117 and 124–126): skipped when the fetch failed or
returned falsy text, a raised `ParseError` propagates. -/
def parse_if_truthy (c : Option Content) : Except Unit (Option StrTable) :=
  match c with
  | none => .ok none
  | some c' =>
    if truthyC c' = false then .ok none
    else match parse_strings_xml c' with
      | .error e => .error e
      | .ok t => .ok (some t)

/-- Lines 112–126: `strings_dict` (empty when the branch file is absent)
followed by the fallback tables that were successfully fetched, in the
fixed priority order.  The result is the argument list
`strings_dict, *fallback_strings` passed to `resolve_string`. -/
def strings_stage (inp : BranchInput) : Except Unit (List StrTable) :=
  match parse_if_truthy inp.evolver_strings with
  | .error e => .error e
  | .ok sd =>
    match parse_if_truthy inp.settings_evolution_strings with
    | .error e => .error e
    | .ok f1 =>
      match parse_if_truthy inp.settings_strings with
      | .error e => .error e
      | .ok f2 =>
        match parse_if_truthy inp.settings_cm_strings with
        | .error e => .error e
        | .ok f3 => .ok (sd.getD [] :: ([f1, f2, f3].filterMap id))

/-- Lines 137–144: fetch and parse the per-category fragment file; a failed
or falsy fetch is logged and contributes an empty category list, a raised
`ParseError` propagates. -/
def sub_prefs_of (inp : BranchInput) (key : Option String) : Except Unit (List FragCategory) :=
  match inp.fragment (pyFStr key) with
  | none => .ok []
  | some c => if truthyC c = false then .ok [] else parse_preference_fragment_xml c

/-- One element of `processed_categories_data` (lines 146–151). -/
structure ProcCat : Type where
  key : Option String
  title : String
  summary : String
  sub_preferences : List FragCategory
deriving DecidableEq

/-- The first loop of `scrape_features` (lines 128–151): top-level
preferences whose key is the sentinel `"about"` are skipped; for the rest
the title and summary are resolved and normalized and the fragment is
fetched and parsed. -/
def processed_of (inp : BranchInput) (chain : List StrTable) :
    List MainPref → Except Unit (List ProcCat)
  | [] => .ok []
  | mp :: rest =>
    if mp.key = some "about" then processed_of inp chain rest
    else
      match sub_prefs_of inp mp.key with
      | .error e => .error e
      | .ok subs =>
        match processed_of inp chain rest with
        | .error e => .error e
        | .ok procs =>
          .ok ({ key := mp.key
                 title := clean_display_text (some (resolve_string mp.title_key chain))
                 summary := clean_display_text (some (resolve_string mp.summary_key chain))
                 sub_preferences := subs } :: procs)

/-- A value of the per-category output dictionary: the `"summary"` entry
holds text, each sub-category title entry holds a features table. -/
inductive InnerVal : Type where
  | str (v : String)
  | table (t : List (String × String))
deriving DecidableEq

/-- One element of `output_data_for_branch` (lines 156–160): the source
dict `{main_cat_title: {...}}` has the single key `main_cat_title`. -/
structure CatEntry : Type where
  title : String
  body : List (String × InnerVal)
deriving DecidableEq

/-- The body of the leaf-preference loop (lines 166–183): resolve and
normalize title and summary; when the summary contains `%s` or is empty,
take the stored override if the key is present, otherwise prompt — a
non-empty stripped reply is used and recorded, an empty one yields a
single space and records nothing.  Returns the emitted title, the emitted
summary and the resulting store.  (`pref.get("key", "<no-key>")` on
line 167 always finds the `"key"` entry, which every descriptor built on
lines 47–51 carries, so it is `pref.key` here.) -/
def process_pref (ask : AskFn) (chain : List StrTable) (repl : Repl) (pref : FragPref) :
    String × String × Repl :=
  let pref_key := pref.key
  let pref_title := clean_display_text (some (resolve_string pref.title_key chain))
  let pref_summary := clean_display_text (some (resolve_string pref.summary_key chain))
  if containsPS pref_summary.data = true ∨ pref_summary = "" then
    match pyGet? repl pref_key with
    | some v => (pref_title, v, repl)
    | none =>
      let new_summary := pyStrip (ask pref_title pref_key pref_summary)
      if new_summary = "" then (pref_title, " ", repl)
      else (pref_title, new_summary, pyDictInsert repl pref_key new_summary)
  else (pref_title, pref_summary, repl)

/-- The loop over `sub_cat["preferences"]` (lines 166–183), accumulating
the `sub_cat_features` dict and threading the store. -/
def build_features (ask : AskFn) (chain : List StrTable) (repl : Repl)
    (features : List (String × String)) :
    List FragPref → List (String × String) × Repl
  | [] => (features, repl)
  | p :: rest =>
    let r := process_pref ask chain repl p
    build_features ask chain r.2.2 (pyDictInsert features r.1 r.2.1) rest

/-- The loop over `main_cat["sub_preferences"]` (lines 162–185),
accumulating the category body dict (which starts from the `"summary"`
entry) and threading the store. -/
def build_subcats (ask : AskFn) (chain : List StrTable) (repl : Repl)
    (body : List (String × InnerVal)) :
    List FragCategory → List (String × InnerVal) × Repl
  | [] => (body, repl)
  | sc :: rest =>
    let sub_cat_title := clean_display_text (some (resolve_string sc.title_key chain))
    let fr := build_features ask chain repl [] sc.preferences
    build_subcats ask chain fr.2 (pyDictInsert body sub_cat_title (InnerVal.table fr.1)) rest

/-- One iteration of the second loop of `scrape_features` (lines 154–187):
the output entry of one processed category, and the resulting store. -/
def build_category (ask : AskFn) (chain : List StrTable) (repl : Repl) (cat : ProcCat) :
    CatEntry × Repl :=
  let r := build_subcats ask chain repl [("summary", InnerVal.str cat.summary)]
    cat.sub_preferences
  ({ title := cat.title, body := r.1 }, r.2)

/-- The second loop of `scrape_features` (lines 153–187): build
`output_data_for_branch` in order, threading the store. -/
def emit (ask : AskFn) (chain : List StrTable) (repl : Repl) :
    List ProcCat → List CatEntry × Repl
  | [] => ([], repl)
  | cat :: rest =>
    let r := build_category ask chain repl cat
    let rr := emit ask chain r.2 rest
    (r.1 :: rr.1, rr.2)

/-- `scrape_features(branch, token, replacements)` (lines 90–197), as a
function of the branch's fetched contents and the prompt.  The result is
the written `output_data_for_branch` (`none` when the function returned
early without writing a file) together with the replacement store after
the call; `Except.error ()` is an uncaught `ParseError` escaping the
call.  The source applies `clean_xml_comments` to the main document text
(line 98), which is the identity on the text. -/
def scrape_features (inp : BranchInput) (repl : Repl) :
    Except Unit (Option (List CatEntry) × Repl) :=
  match inp.main_xml with
  | none => .ok (none, repl)
  | some mc =>
    if truthyC mc = false then .ok (none, repl)
    else match ET_fromstring mc with
      | .error e => .error e
      | .ok main_root =>
        let main_preferences := main_prefs_of main_root
        if main_preferences = [] then .ok (none, repl)
        else match strings_stage inp with
          | .error e => .error e
          | .ok chain =>
            match processed_of inp chain main_preferences with
            | .error e => .error e
            | .ok procs =>
              let r := emit inp.ask chain repl procs
              .ok (some r.1, r.2)

/-! ## Replacement Store persistence (`load_replacements` / `save_replacements`,
lines 73–88)

`json.dump(replacements, f, indent=4, ensure_ascii=False)` writes the store
as a flat JSON object, one `    "key": "value"` line per entry in
insertion order, comma-separated, followed by the source's explicit
trailing newline; `json.load` parses it back.  The `json` module is
external library code, modelled here at the fidelity the store uses: a
flat object whose values are strings. -/

/-- The lower-case hex digit used by `json`'s `\uXXXX` escapes. -/
def hexDigit (n : Nat) : Char :=
  if n < 10 then Char.ofNat ('0'.toNat + n) else Char.ofNat ('a'.toNat + n - 10)

/-- The escaping `json.dump` applies inside a string literal with
`ensure_ascii=False`: `\` and `"` are backslash-escaped, the five named
control characters use their short escapes, the remaining control
characters use `\u00XX`, everything else (including non-ASCII) is written
literally. -/
def escChar (c : Char) : List Char :=
  if c = '\\' then ['\\', '\\']
  else if c = '"' then ['\\', '"']
  else if c = Char.ofNat 8 then ['\\', 'b']
  else if c = Char.ofNat 12 then ['\\', 'f']
  else if c = '\n' then ['\\', 'n']
  else if c = '\r' then ['\\', 'r']
  else if c = '\t' then ['\\', 't']
  else if c.toNat < 32 then ['\\', 'u', '0', '0', hexDigit (c.toNat / 16), hexDigit (c.toNat % 16)]
  else [c]

/-- The escaped body of a JSON string literal. -/
def escBody (s : List Char) : List Char :=
  s.foldr (fun c acc => escChar c ++ acc) []

/-- A quoted JSON string literal. -/
def qstr (s : List Char) : List Char :=
  '"' :: escBody s ++ ['"']

/-- How `json.dump` renders a dict key: a `None` key is serialized as the
string `null`. -/
def keyChars : Option String → List Char
  | none => ['n', 'u', 'l', 'l']
  | some s => s.data

/-- One `    "key": "value"` line (indent 4, key separator `": "`). -/
def dumpItem (p : Option String × String) : List Char :=
  ' ' :: ' ' :: ' ' :: ' ' :: qstr (keyChars p.1) ++ ':' :: ' ' :: qstr p.2.data

/-- The remaining items, each preceded by the item separator `,` and a
newline. -/
def dumpItemsRest : Repl → List Char
  | [] => []
  | p :: ps => ',' :: '\n' :: dumpItem p ++ dumpItemsRest ps

/-- The full text written by `save_replacements` (lines 82–88):
`json.dump(..., indent=4, ensure_ascii=False)` followed by the explicit
`f.write("\n")`. -/
def dumpFile (m : Repl) : List Char :=
  match m with
  | [] => ['{', '}', '\n']
  | p :: ps => '{' :: '\n' :: dumpItem p ++ dumpItemsRest ps ++ ['\n', '}', '\n']

/-- `save_replacements(replacements)`: the text written to
`replacements.json`. -/
def save_replacements (m : Repl) : String :=
  String.mk (dumpFile m)

/-- JSON whitespace (`json.load` skips space, tab, newline, carriage
return between tokens). -/
def isJsonWs (c : Char) : Bool :=
  c = ' ' ∨ c = '\t' ∨ c = '\n' ∨ c = '\r'

/-- Skip JSON whitespace. -/
def jws (s : List Char) : List Char :=
  s.dropWhile isJsonWs

/-- The value of one hex digit, as `json.load` reads `\uXXXX` escapes. -/
def hexVal? (c : Char) : Option Nat :=
  if '0' ≤ c ∧ c ≤ '9' then some (c.toNat - '0'.toNat)
  else if 'a' ≤ c ∧ c ≤ 'f' then some (c.toNat - 'a'.toNat + 10)
  else if 'A' ≤ c ∧ c ≤ 'F' then some (c.toNat - 'A'.toNat + 10)
  else none

/-- The named single-character escapes accepted inside a JSON string. -/
def unescape1 (e : Char) : Option Char :=
  if e = '"' then some '"'
  else if e = '\\' then some '\\'
  else if e = '/' then some '/'
  else if e = 'b' then some (Char.ofNat 8)
  else if e = 'f' then some (Char.ofNat 12)
  else if e = 'n' then some '\n'
  else if e = 'r' then some '\r'
  else if e = 't' then some '\t'
  else none

/-- Parse the body of a JSON string literal (the opening quote already
consumed), returning the decoded characters and the input after the
closing quote.  Unescaped control characters and invalid escapes are
rejected, as `json.load` rejects them; `\uXXXX` escapes in the surrogate
range are rejected (the store's writer never emits them — `json.load`
would attempt surrogate-pair combination there). -/
def parseStrBody : List Char → Option (List Char × List Char)
  | [] => none
  | c :: rest =>
    if c = '"' then some ([], rest)
    else if c = '\\' then
      match rest with
      | 'u' :: h1 :: h2 :: h3 :: h4 :: rest' =>
        match hexVal? h1, hexVal? h2, hexVal? h3, hexVal? h4 with
        | some a, some b, some c3, some d =>
          let n := a * 4096 + b * 256 + c3 * 16 + d
          if 0xD800 ≤ n ∧ n < 0xE000 then none
          else match parseStrBody rest' with
            | some (cs, r) => some (Char.ofNat n :: cs, r)
            | none => none
        | _, _, _, _ => none
      | e :: rest' =>
        match unescape1 e with
        | some ec =>
          match parseStrBody rest' with
          | some (cs, r) => some (ec :: cs, r)
          | none => none
        | none => none
      | [] => none
    else if c.toNat < 32 then none
    else match parseStrBody rest with
      | some (cs, r) => some (c :: cs, r)
      | none => none

/-- Parse one `"key": "value"` member (leading whitespace allowed). -/
def parsePair (s : List Char) : Option ((Option String × String) × List Char) :=
  match jws s with
  | '"' :: rest =>
    match parseStrBody rest with
    | none => none
    | some (k, rest1) =>
      match jws rest1 with
      | ':' :: rest2 =>
        match jws rest2 with
        | '"' :: rest3 =>
          match parseStrBody rest3 with
          | none => none
          | some (v, rest4) => some ((some (String.mk k), String.mk v), rest4)
        | _ => none
      | _ => none
  | _ => none

/-- Parse the members after the first one: a `,`-separated sequence closed
by `}`.  The fuel argument bounds the number of members; callers pass the
input length, which always suffices because every member consumes at
least one character. -/
def parseMembersRest : Nat → List Char → Option (Repl × List Char)
  | 0, _ => none
  | fuel + 1, s =>
    match jws s with
    | [] => none
    | c :: rest =>
      if c = ',' then
        match parsePair rest with
        | none => none
        | some (p, r) =>
          match parseMembersRest fuel r with
          | none => none
          | some (ps, r') => some (p :: ps, r')
      else if c = '}' then some ([], rest)
      else none

/-- Parse a complete flat JSON object document, rejecting trailing
garbage.  This is `json.load` at the shape the store persists (an object
whose values are all strings). -/
def parseTopObject (s : List Char) : Option Repl :=
  match jws s with
  | [] => none
  | c :: rest =>
    if c = '{' then
      match jws rest with
      | [] => none
      | c2 :: rest2 =>
        if c2 = '}' then (if jws rest2 = [] then some [] else none)
        else
          match parsePair rest with
          | none => none
          | some (p, r) =>
            match parseMembersRest s.length r with
            | none => none
            | some (ps, r') => if jws r' = [] then some (p :: ps) else none
    else none

/-- `load_replacements()` (lines 73–80): the argument is the current
content of `replacements.json` (`none` when the file does not exist).  A
file that fails to parse is logged and yields the empty store; a parsed
object becomes a dict (later duplicate keys overwriting earlier ones). -/
def load_replacements (file : Option String) : Repl :=
  match file with
  | none => []
  | some txt =>
    match parseTopObject txt.data with
    | some ps => pyDictOfList ps
    | none => []

/-! ## Spec-side definitions (for refinement claims) -/

/-- §4.8 of the spec, written from its words: a resolved, normalized
summary is *unresolved* when it is empty or contains an unfilled
format-substitution placeholder (the placeholder the pipeline tests for
is the literal `%s`). -/
def needs_override_spec (s : String) : Bool :=
  s = "" ∨ containsPS s.data

/-- §4.8 steps 1–4, written from the spec's words: the summary emitted for
an unresolved leaf preference — the stored override when the key is
present, otherwise the stripped interactive reply, an empty reply
yielding a single-space placeholder. -/
def override_summary_spec (ask : AskFn) (repl : Repl) (title : String)
    (key : Option String) (cur : String) : String :=
  match pyGet? repl key with
  | some v => v
  | none =>
    let reply := pyStrip (ask title key cur)
    if reply = "" then " " else reply

/-- §4.8 steps 1–4, written from the spec's words: the store after an
unresolved leaf preference — unchanged except that a non-empty reply to a
prompt (key absent from the store) is recorded. -/
def override_store_spec (ask : AskFn) (repl : Repl) (title : String)
    (key : Option String) (cur : String) : Repl :=
  match pyGet? repl key with
  | some _ => repl
  | none =>
    let reply := pyStrip (ask title key cur)
    if reply = "" then repl else pyDictInsert repl key reply

/-- §4.8 as a whole, written from the spec's words: the override path
(store lookup, then prompt) is taken exactly when the resolved, normalized
summary is unresolved; otherwise the summary is emitted unchanged and the
store is untouched. -/
def process_pref_spec (ask : AskFn) (chain : List StrTable) (repl : Repl)
    (pref : FragPref) : String × String × Repl :=
  let title := clean_display_text (some (resolve_string pref.title_key chain))
  let s := clean_display_text (some (resolve_string pref.summary_key chain))
  if needs_override_spec s then
    (title, override_summary_spec ask repl title pref.key s,
      override_store_spec ask repl title pref.key s)
  else (title, s, repl)

/-! ## Key-order bookkeeping (for the ordering claim) -/

/-- The effect of one Python dict assignment on the key sequence: an
existing key keeps its position, a new key is appended. -/
def insKey (ks : List String) (k : String) : List String :=
  if k ∈ ks then ks else ks ++ [k]

/-- The key sequence after assigning the keys `ts` in order, starting from
the keys `ks`: the first-occurrence subsequence of `ks ++ ts`. -/
def insKeysFold (ks ts : List String) : List String :=
  ts.foldl insKey ks

/-! ## Concrete branch inputs (used to instantiate the theorems) -/

/-- Shorthand for a platform-namespaced attribute name. -/
def nsa (a : String) : String :=
  "{http://schemas.android.com/apk/res/android}" ++ a

/-- A concrete per-category fragment document: one category `Sub` with a
fully resolved preference, a preference whose summary is missing (so the
override path runs), and a child without a title (dropped). -/
def fragW : XmlElem :=
  .mk "PreferenceScreen" [] none
    [ .mk "PreferenceCategory" [(nsa "title", "Sub")] none
        [ .mk "Preference" [(nsa "key", "p1"), (nsa "title", "P1"), (nsa "summary", "S1")] none []
        , .mk "SwitchPreference" [(nsa "key", "p2"), (nsa "title", "P2")] none []
        , .mk "Preference" [(nsa "key", "p3")] none [] ] ]

/-- A concrete top-level preference listing with an `about` entry between
two ordinary categories. -/
def mainRootW : XmlElem :=
  .mk "PreferenceScreen" [] none
    [ .mk "Preference" [(nsa "key", "a"), (nsa "title", "CatA"), (nsa "summary", "sumA")] none []
    , .mk "Preference" [(nsa "key", "about"), (nsa "title", "About")] none []
    , .mk "Preference" [(nsa "key", "b"), (nsa "title", "@string/bt")] none [] ]

/-- A concrete branch input: the main listing above, a branch string table
defining `bt`, no fallback tables, a fragment for category `a` only, and
a prompt whose reply needs stripping. -/
def inpW : BranchInput :=
  { main_xml := some (.ok mainRootW)
    evolver_strings := some (.ok (.mk "resources" [] none
      [ .mk "string" [("name", "bt")] (some "CatB") [] ]))
    settings_evolution_strings := none
    settings_strings := some .empty
    settings_cm_strings := none
    fragment := fun k => if k = "a" then some (.ok fragW) else none
    ask := fun _ _ _ => "  Filled reply " }

/-- `inpW` with a malformed branch string-table file. -/
def inpWBad : BranchInput :=
  { inpW with evolver_strings := some .malformed }

/-- The tree `scrape_features` emits for `inpW` (starting from an empty
store). -/
def outW : List CatEntry :=
  [ { title := "CatA"
      body := [("summary", .str "sumA"),
               ("Sub", .table [("P1", "S1"), ("P2", "Filled reply")])] }
  , { title := "CatB", body := [("summary", .str "")] } ]

/-! # Theorems

First the generic facts about the Python-dict embedding, then one theorem
per specification claim. -/

section DictLemmas

variable {α β : Type} [DecidableEq α]

theorem pyMem_iff_isSome (d : List (α × β)) (k : α) :
    pyMem d k = true ↔ (pyGet? d k).isSome = true := by
  simp [pyMem, pyGet?, List.any_eq_true, List.find?_isSome]

theorem pyMem_false_get (d : List (α × β)) (k : α) (h : pyMem d k = false) :
    pyGet? d k = none := by
  rcases h' : pyGet? d k with _ | v
  · rfl
  · have : pyMem d k = true := by rw [pyMem_iff_isSome, h']; rfl
    rw [this] at h
    exact absurd h (by simp)

theorem find?_map_replace_ne (d : List (α × β)) (k k' : α) (v : β) (hk : k' ≠ k) :
    List.find? (fun p => decide (p.1 = k'))
        (d.map (fun p => if p.1 = k then (k, v) else p)) =
      List.find? (fun p => decide (p.1 = k')) d := by
  induction d with
  | nil => rfl
  | cons q rest ih =>
    simp only [List.map_cons]
    by_cases hq : q.1 = k
    · rw [if_pos hq]
      rw [List.find?_cons_of_neg _ (by simp; exact fun h => hk h.symm),
        List.find?_cons_of_neg _ (by simp [hq]; exact fun h => hk h.symm), ih]
    · rw [if_neg hq]
      by_cases hq' : q.1 = k'
      · rw [List.find?_cons_of_pos _ (by simp [hq']), List.find?_cons_of_pos _ (by simp [hq'])]
      · rw [List.find?_cons_of_neg _ (by simp [hq']), List.find?_cons_of_neg _ (by simp [hq']),
          ih]

theorem find?_map_replace_eq (d : List (α × β)) (k : α) (v : β)
    (hmem : k ∈ d.map Prod.fst) :
    List.find? (fun p => decide (p.1 = k))
        (d.map (fun p => if p.1 = k then (k, v) else p)) = some (k, v) := by
  induction d with
  | nil => simp at hmem
  | cons q rest ih =>
    simp only [List.map_cons]
    by_cases hq : q.1 = k
    · rw [if_pos hq, List.find?_cons_of_pos _ (by simp)]
    · rw [if_neg hq, List.find?_cons_of_neg _ (by simp [hq])]
      apply ih
      simp only [List.map_cons, List.mem_cons] at hmem
      rcases hmem with h | h
      · exact absurd h.symm hq
      · exact h

theorem pyGet?_insert (d : List (α × β)) (k : α) (v : β) (k' : α) :
    pyGet? (pyDictInsert d k v) k' = if k' = k then some v else pyGet? d k' := by
  unfold pyDictInsert pyGet?
  by_cases hmem : d.any (fun p => decide (p.1 = k)) = true
  · rw [if_pos hmem]
    have hkmem : k ∈ d.map Prod.fst := by
      rcases List.any_eq_true.mp hmem with ⟨p, hp, hpk⟩
      simp only [decide_eq_true_eq] at hpk
      exact List.mem_map.mpr ⟨p, hp, hpk⟩
    by_cases hk : k' = k
    · subst hk
      rw [if_pos rfl, find?_map_replace_eq d k' v hkmem]
      rfl
    · rw [if_neg hk, find?_map_replace_ne d k k' v hk]
  · rw [if_neg hmem, List.find?_append]
    have hd : d.find? (fun p => decide (p.1 = k)) = none := by
      rw [List.find?_eq_none]
      intro x hx
      simp only [decide_eq_true_eq]
      intro hxk
      exact hmem (List.any_eq_true.mpr ⟨x, hx, by simp [hxk]⟩)
    by_cases hk : k' = k
    · subst hk
      rw [if_pos rfl, hd]
      simp [List.find?]
    · rw [if_neg hk]
      have h2 : List.find? (fun p => decide (p.1 = k')) [(k, v)] = none := by
        simp only [List.find?]
        rw [decide_eq_false (fun h : (k, v).1 = k' => hk h.symm)]
      rw [h2, Option.or_none]

theorem keys_pyDictInsert (d : List (α × β)) (k : α) (v : β) :
    (pyDictInsert d k v).map Prod.fst =
      if k ∈ d.map Prod.fst then d.map Prod.fst else d.map Prod.fst ++ [k] := by
  unfold pyDictInsert
  have hany : (d.any (fun p => decide (p.1 = k)) = true) ↔ k ∈ d.map Prod.fst := by
    rw [List.any_eq_true]
    constructor
    · rintro ⟨p, hp, hpk⟩
      simp only [decide_eq_true_eq] at hpk
      exact List.mem_map.mpr ⟨p, hp, hpk⟩
    · intro h
      rcases List.mem_map.mp h with ⟨p, hp, hpk⟩
      exact ⟨p, hp, by simp [hpk]⟩
  by_cases hmem : k ∈ d.map Prod.fst
  · rw [if_pos (hany.mpr hmem), if_pos hmem, List.map_map]
    refine List.map_congr_left ?_
    intro p _
    by_cases hp : p.1 = k
    · simp [hp]
    · simp [hp]
  · rw [if_neg (fun h => hmem (hany.mp h)), if_neg hmem, List.map_append]
    rfl

theorem pyDictOfList_concat (l : List (α × β)) (p : α × β) :
    pyDictOfList (l ++ [p]) = pyDictInsert (pyDictOfList l) p.1 p.2 := by
  simp [pyDictOfList, List.foldl_concat]

theorem mem_keys_pyDictOfList (l : List (α × β)) (k : α) :
    k ∈ (pyDictOfList l).map Prod.fst ↔ k ∈ l.map Prod.fst := by
  induction l using List.reverseRecOn generalizing k with
  | nil => simp [pyDictOfList]
  | append_singleton l p ih =>
    rw [pyDictOfList_concat, keys_pyDictInsert, List.map_append]
    by_cases hmem : p.1 ∈ (pyDictOfList l).map Prod.fst
    · rw [if_pos hmem]
      simp only [List.mem_append, List.map_cons, List.map_nil, List.mem_singleton]
      constructor
      · intro h
        exact Or.inl ((ih k).mp h)
      · rintro (h | h)
        · exact (ih k).mpr h
        · exact h ▸ hmem
    · rw [if_neg hmem]
      simp only [List.mem_append, List.map_cons, List.map_nil, List.mem_singleton, ih k]

theorem keys_nodup_pyDictOfList (l : List (α × β)) :
    ((pyDictOfList l).map Prod.fst).Nodup := by
  induction l using List.reverseRecOn with
  | nil => simp [pyDictOfList]
  | append_singleton l p ih =>
    rw [pyDictOfList_concat, keys_pyDictInsert]
    by_cases hmem : p.1 ∈ (pyDictOfList l).map Prod.fst
    · rw [if_pos hmem]; exact ih
    · rw [if_neg hmem]
      refine ih.append (List.nodup_singleton _) ?_
      intro a ha hb
      rcases List.mem_singleton.mp hb with rfl
      exact hmem ha

theorem pyGet?_pyDictOfList_last (l : List (α × β)) (k : α) :
    pyGet? (pyDictOfList l) k =
      ((l.filter (fun p => decide (p.1 = k))).getLast?).map Prod.snd := by
  induction l using List.reverseRecOn with
  | nil => simp [pyDictOfList, pyGet?]
  | append_singleton l p ih =>
    rw [pyDictOfList_concat, pyGet?_insert, List.filter_append]
    by_cases hk : k = p.1
    · subst hk
      have : List.filter (fun q => decide (q.1 = p.1)) [p] = [p] := by
        simp [List.filter_singleton]
      rw [if_pos rfl, this, List.getLast?_concat]
      rfl
    · rw [if_neg hk]
      have : List.filter (fun q => decide (q.1 = k)) [p] = [] := by
        rw [List.filter_singleton, decide_eq_false (fun h : p.1 = k => hk h.symm)]
        rfl
      rw [this, List.append_nil, ih]

theorem pyDictOfList_eq_self (l : List (α × β)) (h : (l.map Prod.fst).Nodup) :
    pyDictOfList l = l := by
  induction l using List.reverseRecOn with
  | nil => rfl
  | append_singleton l p ih =>
    rw [List.map_append] at h
    rcases List.nodup_append.mp h with ⟨h1, _, hdisj⟩
    rw [pyDictOfList_concat, ih h1]
    unfold pyDictInsert
    have : l.any (fun q => decide (q.1 = p.1)) = false := by
      rw [Bool.eq_false_iff]
      intro hany
      rcases List.any_eq_true.mp hany with ⟨q, hq, hqk⟩
      simp only [decide_eq_true_eq] at hqk
      exact hdisj (List.mem_map_of_mem Prod.fst hq) (by simp [hqk])
    rw [this]
    simp

end DictLemmas

/-! ## C1 — Comment Stripper -/

/-- **C1** (code_bug exhibit).  The claim states that `clean_xml_comments`
removes every `<!-- ... -->` span.  The code's substitution pattern is the
empty regular expression (the intended comment pattern is missing), so the
function returns its input unchanged: on an input containing a comment
span, the output still contains that comment span. -/
theorem c1_comment_stripper_keeps_comment_spans :
    clean_xml_comments "<p><!-- secret --></p>" = "<p><!-- secret --></p>" ∧
    hasCommentOpen (clean_xml_comments "<p><!-- secret --></p>").data = true := by
  exact ⟨rfl, by decide⟩

/-! ## C3 — String Resolver -/

theorem scanChain_eq_findSome? (key : String) (chain : List StrTable) :
    scanChain key chain =
      match chain.findSome? (fun d => pyGet? d (some key)) with
      | some v => v
      | none => "<MISSING " ++ key ++ ">" := by
  induction chain with
  | nil => rfl
  | cons d ds ih =>
    rw [List.findSome?_cons]
    rcases h : pyGet? d (some key) with _ | v
    · have hm : pyMem d (some key) = false := by
        rcases hb : pyMem d (some key) with _ | _
        · rfl
        · have := (pyMem_iff_isSome d (some key)).mp hb
          rw [h] at this
          exact absurd this (by simp)
      rw [scanChain, if_neg (by rw [hm]; simp), ih]
    · have hm : pyMem d (some key) = true := by
        rw [pyMem_iff_isSome, h]; rfl
      rw [scanChain, if_pos (by rw [hm]), h]
      rfl

theorem pyAfterFirstSlash_sigil (t : List Char) :
    pyAfterFirstSlash ((['@', 's', 't', 'r', 'i', 'n', 'g', '/'] : List Char) ++ t) = t := by
  simp [pyAfterFirstSlash]

/-- **C3** (confirmed).  `resolve_string` equals the reference resolver of
§4.5: an absent reference yields the empty string, a reference without the
`@string/` sigil is returned verbatim, and a sigil reference is resolved
to the earliest chain table containing the extracted key, or to the
`<MISSING key>` marker when no table contains it. -/
theorem c3_resolve_string_matches_spec (ref : Option String) (chain : List StrTable) :
    resolve_string ref chain = resolve_spec ref chain := by
  rcases ref with _ | r
  · rfl
  · by_cases hr : r = ""
    · subst hr
      have hsw : pyStartswith "" "@string/" = false := by decide
      simp [resolve_string, resolve_spec, hsw]
    · rcases hsw : pyStartswith r "@string/" with _ | _
      · simp [resolve_string, resolve_spec, hr, hsw]
      · have hpre : ∃ t, r.data = "@string/".data ++ t := by
          have := List.isPrefixOf_iff_prefix.mp hsw
          rcases this with ⟨t, ht⟩
          exact ⟨t, ht.symm⟩
        rcases hpre with ⟨t, ht⟩
        have hkey : pyAfterFirstSlash r.data = r.data.drop 8 := by
          rw [ht]
          have hd : ("@string/".data : List Char) =
              ['@', 's', 't', 'r', 'i', 'n', 'g', '/'] := rfl
          rw [hd, pyAfterFirstSlash_sigil]
          have : (['@', 's', 't', 'r', 'i', 'n', 'g', '/'] : List Char).length = 8 := rfl
          rw [← this, List.drop_left]
        simp only [resolve_string, resolve_spec, if_neg hr, hsw]
        rw [if_neg (by simp), if_neg (by simp), hkey, scanChain_eq_findSome?]

/-! ## C7 — Display Normalizer -/

theorem pySplitBackslashNHead_head? (l : List Char) :
    (pySplitBackslashNHead l).head? = none ∨
      (pySplitBackslashNHead l).head? = l.head? := by
  rcases l with _ | ⟨c, rest⟩
  · exact Or.inl rfl
  · rw [pySplitBackslashNHead]
    by_cases h : c = '\\' ∧ rest.head? = some 'n'
    · rw [if_pos h]; exact Or.inl rfl
    · rw [if_neg h]; exact Or.inr rfl

theorem pySplitBackslashNHead_decomp (l : List Char) :
    ∃ rest, l = pySplitBackslashNHead l ++ rest ∧
      hasMarker (pySplitBackslashNHead l) = false ∧
      (rest = [] ∨ ∃ r, rest = '\\' :: 'n' :: r) := by
  induction l with
  | nil => exact ⟨[], rfl, rfl, Or.inl rfl⟩
  | cons c cs ih =>
    rw [pySplitBackslashNHead]
    by_cases h : c = '\\' ∧ cs.head? = some 'n'
    · rw [if_pos h]
      rcases h with ⟨hc, hcs⟩
      rcases cs with _ | ⟨c2, cs'⟩
      · exact absurd hcs (by simp)
      · simp only [List.head?] at hcs
        have hc2 : c2 = 'n' := by injection hcs
        refine ⟨c :: c2 :: cs', by simp, rfl, Or.inr ⟨cs', ?_⟩⟩
        rw [hc, hc2]
    · rw [if_neg h]
      rcases ih with ⟨rest, hdec, hmk, hrest⟩
      refine ⟨rest, by rw [List.cons_append, ← hdec], ?_, hrest⟩
      rw [hasMarker]
      rw [if_neg ?_]
      · exact hmk
      · rintro ⟨hc, hhd⟩
        rcases pySplitBackslashNHead_head? cs with h0 | h0
        · rw [h0] at hhd
          exact absurd hhd (by simp)
        · rw [h0] at hhd
          exact h ⟨hc, hhd⟩

/-- **C7** (confirmed).  `clean_display_text` returns the portion of its
input before the first occurrence of the literal two-character marker
`\` `n` (the decomposition below cuts at the first occurrence), with every
escaped single-quote sequence in that portion replaced by `'`
(`pyReplaceEscapedQuote`); empty or absent input yields the empty string;
and the three concrete examples of the claim hold. -/
theorem c7_normalizer_first_line_unescape :
    clean_display_text none = "" ∧
    clean_display_text (some "") = "" ∧
    clean_display_text (some "Line1\\nLine2") = "Line1" ∧
    clean_display_text (some "don\\'t") = "don't" ∧
    (∀ t : String, ∃ pre rest : List Char,
      t.data = pre ++ rest ∧
      hasMarker pre = false ∧
      (rest = [] ∨ ∃ r, rest = '\\' :: 'n' :: r) ∧
      clean_display_text (some t) = String.mk (pyReplaceEscapedQuote pre)) := by
  refine ⟨rfl, rfl, by decide, by decide, ?_⟩
  intro t
  rcases pySplitBackslashNHead_decomp t.data with ⟨rest, hdec, hmk, hrest⟩
  refine ⟨pySplitBackslashNHead t.data, rest, hdec, hmk, hrest, ?_⟩
  by_cases ht : t = ""
  · subst ht
    rfl
  · simp [clean_display_text, ht]

/-! ## C4 — needs-override decision protocol -/

/-- **C4** (confirmed).  For every leaf preference the body of the leaf
loop equals the §4.8 protocol: the override path (store lookup, then
prompt) is taken exactly when the resolved, normalized summary is
unresolved (empty or containing the unfilled `%s` placeholder), and a
resolved summary is emitted unchanged with the store untouched and the
prompt never consulted. -/
theorem c4_override_path_iff_unresolved (ask : AskFn) (chain : List StrTable)
    (repl : Repl) (pref : FragPref) :
    process_pref ask chain repl pref = process_pref_spec ask chain repl pref := by
  by_cases he : clean_display_text (some (resolve_string pref.summary_key chain)) = "" <;>
  by_cases hp : containsPS
    (clean_display_text (some (resolve_string pref.summary_key chain))).data = true <;>
  rcases hg : pyGet? repl pref.key with _ | v <;>
  by_cases hr : pyStrip (ask (clean_display_text (some (resolve_string pref.title_key chain)))
    pref.key (clean_display_text (some (resolve_string pref.summary_key chain)))) = "" <;>
  simp [process_pref, process_pref_spec, override_summary_spec, override_store_spec,
    needs_override_spec, he, hp, hg, hr] <;>
  split_ifs <;> rfl

/-! ## C5 — empty reply: snooze, not dismiss -/

/-- **C5** (confirmed).  For a leaf preference with an unresolved summary
whose key is absent from the store, an empty (stripped) interactive reply
makes the emitted summary exactly a single space and leaves the store
unchanged. -/
theorem c5_empty_reply_space_store_unchanged (ask : AskFn) (chain : List StrTable)
    (repl : Repl) (pref : FragPref)
    (hu : containsPS (clean_display_text (some (resolve_string pref.summary_key chain))).data
          = true
        ∨ clean_display_text (some (resolve_string pref.summary_key chain)) = "")
    (hk : pyGet? repl pref.key = none)
    (hr : pyStrip (ask (clean_display_text (some (resolve_string pref.title_key chain))) pref.key
        (clean_display_text (some (resolve_string pref.summary_key chain)))) = "") :
    process_pref ask chain repl pref =
      (clean_display_text (some (resolve_string pref.title_key chain)), " ", repl) := by
  unfold process_pref
  rw [if_pos hu, hk, hr]
  simp

/-- Witness for C5: a preference with an absent summary reference, a store
not containing its key, and a whitespace-only reply. -/
theorem c5_empty_reply_space_store_unchanged_witness :
    process_pref (fun _ _ _ => "   ") [] [(some "other", "v")]
        ⟨some "k", some "T", none⟩ =
      ("T", " ", [(some "other", "v")]) := by
  rw [c5_empty_reply_space_store_unchanged (fun _ _ _ => "   ") [] [(some "other", "v")]
    ⟨some "k", some "T", none⟩ (by decide) (by decide) (by decide)]
  rfl

/-! ## C2 — malformed string/fragment files are *not* recovered at file scope -/

/-- **C2** (counterexample).  The claim states that a string-table file
that is not well-formed XML leaves the branch processing running with the
file contributing no entries.  On `inpWBad` — a valid main listing with
two ordinary categories, whose branch string-table file is malformed —
`scrape_features` instead aborts with the uncaught `ParseError`
(`parse_strings_xml` on line 117 is called without any exception
handling): no output is produced for the branch at all. -/
theorem c2_malformed_strings_counterexample :
    scrape_features inpWBad [] = Except.error () := rfl

/-- **C2** (amended).  Whenever the top-level listing parses with at least
one preference and the branch string-table file is present but malformed,
`scrape_features` raises the `ParseError` out of the branch: the parse
failure is not confined to file scope, the branch aborts with no output
(and, in `main`, the exception ends the run). -/
theorem c2_malformed_strings_aborts_branch (inp : BranchInput) (repl : Repl)
    (root : XmlElem)
    (h1 : inp.main_xml = some (Content.ok root))
    (h2 : main_prefs_of root ≠ [])
    (h3 : inp.evolver_strings = some Content.malformed) :
    scrape_features inp repl = .error () := by
  have hs : strings_stage inp = .error () := by
    unfold strings_stage
    rw [h3]
    rfl
  simp [scrape_features, h1, h2, hs, truthyC, ET_fromstring]

/-- Witness for the amended C2, at a one-preference listing. -/
theorem c2_malformed_strings_aborts_branch_witness :
    scrape_features
      { main_xml := some (.ok (.mk "PreferenceScreen" [] none
          [ .mk "Preference" [(nsa "key", "x"), (nsa "title", "X")] none [] ]))
        evolver_strings := some .malformed
        settings_evolution_strings := none
        settings_strings := none
        settings_cm_strings := none
        fragment := fun _ => none
        ask := fun _ _ _ => "" } [] = .error () := by
  exact c2_malformed_strings_aborts_branch _ [] (.mk "PreferenceScreen" [] none
    [ .mk "Preference" [(nsa "key", "x"), (nsa "title", "X")] none [] ])
    rfl (by decide) rfl

/-! ## C10 — String Table Parser: one entry per distinct name, last wins -/

/-- **C10** (confirmed).  On a well-formed string-table file,
`parse_strings_xml` returns a mapping whose keys are exactly the distinct
`name` attributes of the top-level `string` elements, with no duplicate
keys, and the value stored for each name is the text of the *last*
element carrying that name in document order. -/
theorem c10_parse_strings_one_entry_last_wins (root : XmlElem) :
    ∃ d, parse_strings_xml (Content.ok root) = .ok d ∧
      (d.map Prod.fst).Nodup ∧
      (∀ n, n ∈ d.map Prod.fst ↔ n ∈ (stringEntries root).map Prod.fst) ∧
      (∀ n, pyGet? d n =
        ((stringEntries root).filter (fun p => decide (p.1 = n))).getLast?.map Prod.snd) := by
  exact ⟨pyDictOfList (stringEntries root), rfl, keys_nodup_pyDictOfList _,
    fun n => mem_keys_pyDictOfList _ n, fun n => pyGet?_pyDictOfList_last _ n⟩

/-! ## Aggregator structure lemmas (shared by the tree-shape claims) -/

theorem process_pref_title (ask : AskFn) (chain : List StrTable) (repl : Repl)
    (pref : FragPref) :
    (process_pref ask chain repl pref).1 =
      clean_display_text (some (resolve_string pref.title_key chain)) := by
  rcases hg : pyGet? repl pref.key with _ | v <;>
  simp [process_pref, hg] <;> split_ifs <;> rfl

theorem emit_titles (ask : AskFn) (chain : List StrTable) :
    ∀ (procs : List ProcCat) (repl : Repl),
      ((emit ask chain repl procs).1).map CatEntry.title = procs.map ProcCat.title := by
  intro procs
  induction procs with
  | nil => intro repl; rfl
  | cons cat rest ih =>
    intro repl
    simp only [emit, List.map_cons]
    rw [ih]
    rfl

theorem processed_of_pairs (inp : BranchInput) (chain : List StrTable) :
    ∀ (prefs : List MainPref) (procs : List ProcCat),
      processed_of inp chain prefs = .ok procs →
      procs.map (fun pc => (pc.key, pc.title)) =
        (prefs.filter (fun p => !(decide (p.key = some "about")))).map
          (fun p => (p.key, clean_display_text (some (resolve_string p.title_key chain)))) := by
  intro prefs
  induction prefs with
  | nil =>
    intro procs h
    simp only [processed_of, Except.ok.injEq] at h
    rw [← h]
    rfl
  | cons mp rest ih =>
    intro procs h
    rw [processed_of] at h
    by_cases hab : mp.key = some "about"
    · rw [if_pos hab] at h
      rw [List.filter_cons_of_neg (by simp [hab])]
      exact ih procs h
    · rw [if_neg hab] at h
      rcases hsp : sub_prefs_of inp mp.key with e | subs
      · rw [hsp] at h; simp at h
      · rw [hsp] at h
        dsimp only at h
        rcases hpr : processed_of inp chain rest with e | procs'
        · rw [hpr] at h; simp at h
        · rw [hpr] at h
          dsimp only at h
          simp only [Except.ok.injEq] at h
          rw [← h, List.filter_cons_of_pos (by simp [hab]), List.map_cons, List.map_cons]
          rw [ih procs' hpr]

theorem scrape_ok_inv (inp : BranchInput) (repl : Repl) (out : List CatEntry) (r' : Repl)
    (h : scrape_features inp repl = .ok (some out, r')) :
    ∃ root chain procs, inp.main_xml = some (Content.ok root) ∧
      strings_stage inp = .ok chain ∧
      processed_of inp chain (main_prefs_of root) = .ok procs ∧
      emit inp.ask chain repl procs = (out, r') := by
  unfold scrape_features at h
  rcases hmx : inp.main_xml with _ | mc
  · rw [hmx] at h; simp at h
  · rw [hmx] at h
    rcases mc with root | _ | _
    · simp only [truthyC, ET_fromstring] at h
      rw [if_neg (by simp)] at h
      by_cases hmp : main_prefs_of root = []
      · rw [if_pos hmp] at h; simp at h
      · rw [if_neg hmp] at h
        rcases hss : strings_stage inp with e | chain
        · rw [hss] at h; simp at h
        · rw [hss] at h
          dsimp only at h
          rcases hpc : processed_of inp chain (main_prefs_of root) with e | procs
          · rw [hpc] at h; simp at h
          · rw [hpc] at h
            dsimp only at h
            simp only [Except.ok.injEq, Prod.mk.injEq, Option.some.injEq] at h
            exact ⟨root, chain, procs, rfl, rfl, hpc, Prod.ext h.1 h.2⟩
    · simp [truthyC, ET_fromstring] at h
    · simp [truthyC] at h

/-! ## C6 — the `about` sentinel is always excluded -/

/-- **C6** (confirmed).  Whenever `scrape_features` emits a tree, the tree
has exactly one entry per top-level preference whose key is *not* the
sentinel `"about"`, and every emitted entry traces back to such a
non-`about` preference (its title is that preference's resolved,
normalized title): no entry derived from an `about` descriptor appears,
regardless of its position in the document. -/
theorem c6_about_never_emitted (inp : BranchInput) (repl : Repl) (out : List CatEntry)
    (r' : Repl) (h : scrape_features inp repl = .ok (some out, r')) :
    ∃ root chain, inp.main_xml = some (Content.ok root) ∧
      strings_stage inp = .ok chain ∧
      out.length = ((main_prefs_of root).filter
        (fun p => !(decide (p.key = some "about")))).length ∧
      ∀ e ∈ out, ∃ mp, mp ∈ main_prefs_of root ∧ ¬ mp.key = some "about" ∧
        e.title = clean_display_text (some (resolve_string mp.title_key chain)) := by
  obtain ⟨root, chain, procs, h1, h2, h3, h4⟩ := scrape_ok_inv inp repl out r' h
  have hp := processed_of_pairs inp chain (main_prefs_of root) procs h3
  have htitles : procs.map ProcCat.title =
      ((main_prefs_of root).filter (fun p => !(decide (p.key = some "about")))).map
        (fun p => clean_display_text (some (resolve_string p.title_key chain))) := by
    have := congrArg (List.map Prod.snd) hp
    simpa [List.map_map, Function.comp] using this
  have hout_t : out.map CatEntry.title = procs.map ProcCat.title := by
    have h5 : (emit inp.ask chain repl procs).1 = out := by rw [h4]
    rw [← h5, emit_titles]
  refine ⟨root, chain, h1, h2, ?_, ?_⟩
  · have := congrArg List.length (hout_t.trans htitles)
    simpa using this
  · intro e he
    have hmem : e.title ∈ out.map CatEntry.title := List.mem_map_of_mem _ he
    rw [hout_t, htitles] at hmem
    rcases List.mem_map.mp hmem with ⟨p, hpmem, hpt⟩
    refine ⟨p, List.mem_of_mem_filter hpmem, ?_, hpt.symm⟩
    have := List.of_mem_filter hpmem
    simpa using this

/-- Witness for C6 at the concrete branch input `inpW`, whose main listing
contains an `about` descriptor between two ordinary ones. -/
theorem c6_about_never_emitted_witness :
    ∃ root chain, inpW.main_xml = some (Content.ok root) ∧
      strings_stage inpW = .ok chain ∧
      outW.length = ((main_prefs_of root).filter
        (fun p => !(decide (p.key = some "about")))).length ∧
      ∀ e ∈ outW, ∃ mp, mp ∈ main_prefs_of root ∧ ¬ mp.key = some "about" ∧
        e.title = clean_display_text (some (resolve_string mp.title_key chain)) :=
  c6_about_never_emitted inpW [] outW [(some "p2", "Filled reply")] rfl

/-! ## C8 — output order mirrors document order -/

theorem insKeysFold_cons (ks : List String) (t : String) (ts : List String) :
    insKeysFold ks (t :: ts) = insKeysFold (insKey ks t) ts := rfl

theorem keys_pyDictInsert_insKey {β : Type} (d : List (String × β)) (k : String) (v : β) :
    (pyDictInsert d k v).map Prod.fst = insKey (d.map Prod.fst) k := by
  rw [keys_pyDictInsert, insKey]

theorem build_features_keys (ask : AskFn) (chain : List StrTable) :
    ∀ (prefs : List FragPref) (repl : Repl) (feats : List (String × String)),
      ((build_features ask chain repl feats prefs).1).map Prod.fst =
        insKeysFold (feats.map Prod.fst)
          (prefs.map (fun p => clean_display_text (some (resolve_string p.title_key chain)))) := by
  intro prefs
  induction prefs with
  | nil => intro repl feats; rfl
  | cons p rest ih =>
    intro repl feats
    simp only [build_features, List.map_cons]
    rw [ih, insKeysFold_cons, keys_pyDictInsert_insKey, process_pref_title]

theorem build_subcats_keys (ask : AskFn) (chain : List StrTable) :
    ∀ (scs : List FragCategory) (repl : Repl) (body : List (String × InnerVal)),
      ((build_subcats ask chain repl body scs).1).map Prod.fst =
        insKeysFold (body.map Prod.fst)
          (scs.map (fun sc => clean_display_text (some (resolve_string sc.title_key chain)))) := by
  intro scs
  induction scs with
  | nil => intro repl body; rfl
  | cons sc rest ih =>
    intro repl body
    simp only [build_subcats, List.map_cons]
    rw [ih, insKeysFold_cons, keys_pyDictInsert_insKey]

theorem build_category_keys (ask : AskFn) (chain : List StrTable) (repl : Repl)
    (cat : ProcCat) :
    (((build_category ask chain repl cat).1).body).map Prod.fst =
      insKeysFold ["summary"]
        (cat.sub_preferences.map
          (fun sc => clean_display_text (some (resolve_string sc.title_key chain)))) := by
  unfold build_category
  exact build_subcats_keys ask chain cat.sub_preferences repl
    [("summary", InnerVal.str cat.summary)]

theorem insKeysFold_eq_append :
    ∀ (ts ks : List String), ts.Nodup → (∀ t ∈ ts, t ∉ ks) →
      insKeysFold ks ts = ks ++ ts := by
  intro ts
  induction ts with
  | nil => intro ks _ _; simp [insKeysFold]
  | cons t ts ih =>
    intro ks hnd hdisj
    rcases List.nodup_cons.mp hnd with ⟨hthd, htl⟩
    rw [insKeysFold_cons, insKey, if_neg (hdisj t (by simp))]
    rw [ih (ks ++ [t]) htl ?_]
    · simp
    · intro t' ht'
      simp only [List.mem_append, List.mem_singleton]
      rintro (h | h)
      · exact hdisj t' (by simp [ht']) h
      · exact hthd (h ▸ ht')

/-- **C8** (confirmed).  The emitted order mirrors document order at every
level and no level is resorted: (i) the top-level entries are exactly the
non-`about` top-level preferences, title for title, in document order;
(ii) a category body's keys are the first-occurrence subsequence
(`insKeysFold`) of `"summary"` followed by the sub-category titles in
document order; (iii) a sub-category's feature keys are the
first-occurrence subsequence of the preference titles in document order;
(iv)/(v) when the titles of a level are pairwise distinct (and distinct
from the fixed `"summary"` entry) the emitted key order is *exactly* the
document order.  (Duplicate titles collapse onto their first position
with last-wins values, the collision the spec documents in §3.) -/
theorem c8_order_mirrors_document_order :
    (∀ (inp : BranchInput) (repl : Repl) (out : List CatEntry) (r' : Repl),
      scrape_features inp repl = .ok (some out, r') →
      ∃ root chain, inp.main_xml = some (Content.ok root) ∧
        strings_stage inp = .ok chain ∧
        out.map CatEntry.title =
          ((main_prefs_of root).filter (fun p => !(decide (p.key = some "about")))).map
            (fun p => clean_display_text (some (resolve_string p.title_key chain)))) ∧
    (∀ (ask : AskFn) (chain : List StrTable) (repl : Repl) (cat : ProcCat),
      (((build_category ask chain repl cat).1).body).map Prod.fst =
        insKeysFold ["summary"]
          (cat.sub_preferences.map
            (fun sc => clean_display_text (some (resolve_string sc.title_key chain))))) ∧
    (∀ (ask : AskFn) (chain : List StrTable) (repl : Repl) (prefs : List FragPref),
      ((build_features ask chain repl [] prefs).1).map Prod.fst =
        insKeysFold []
          (prefs.map (fun p => clean_display_text (some (resolve_string p.title_key chain))))) ∧
    (∀ (ask : AskFn) (chain : List StrTable) (repl : Repl) (cat : ProcCat),
      (cat.sub_preferences.map
          (fun sc => clean_display_text (some (resolve_string sc.title_key chain)))).Nodup →
      "summary" ∉ cat.sub_preferences.map
          (fun sc => clean_display_text (some (resolve_string sc.title_key chain))) →
      (((build_category ask chain repl cat).1).body).map Prod.fst =
        "summary" :: cat.sub_preferences.map
          (fun sc => clean_display_text (some (resolve_string sc.title_key chain)))) ∧
    (∀ (ask : AskFn) (chain : List StrTable) (repl : Repl) (prefs : List FragPref),
      (prefs.map (fun p => clean_display_text (some (resolve_string p.title_key chain)))).Nodup →
      ((build_features ask chain repl [] prefs).1).map Prod.fst =
        prefs.map (fun p => clean_display_text (some (resolve_string p.title_key chain)))) := by
  refine ⟨?_, build_category_keys, ?_, ?_, ?_⟩
  · intro inp repl out r' h
    obtain ⟨root, chain, procs, h1, h2, h3, h4⟩ := scrape_ok_inv inp repl out r' h
    have hp := processed_of_pairs inp chain (main_prefs_of root) procs h3
    have htitles : procs.map ProcCat.title =
        ((main_prefs_of root).filter (fun p => !(decide (p.key = some "about")))).map
          (fun p => clean_display_text (some (resolve_string p.title_key chain))) := by
      have := congrArg (List.map Prod.snd) hp
      simpa [List.map_map, Function.comp] using this
    have h5 : (emit inp.ask chain repl procs).1 = out := by rw [h4]
    refine ⟨root, chain, h1, h2, ?_⟩
    rw [← h5, emit_titles, htitles]
  · intro ask chain repl prefs
    exact build_features_keys ask chain prefs repl []
  · intro ask chain repl cat hnd hns
    rw [build_category_keys, insKeysFold_eq_append _ _ hnd ?_]
    · rfl
    · intro t ht
      simp only [List.mem_singleton]
      intro hts
      exact hns (hts ▸ ht)
  · intro ask chain repl prefs hnd
    rw [build_features_keys ask chain prefs repl [],
      insKeysFold_eq_append _ _ hnd (by simp)]
    rfl

/-- Witness for C8: the top-level order at the concrete input `inpW`, and
the exact-order consequences at a concrete category and preference list
with distinct titles. -/
theorem c8_order_mirrors_document_order_witness :
    (∃ root chain, inpW.main_xml = some (Content.ok root) ∧
        strings_stage inpW = .ok chain ∧
        outW.map CatEntry.title =
          ((main_prefs_of root).filter (fun p => !(decide (p.key = some "about")))).map
            (fun p => clean_display_text (some (resolve_string p.title_key chain)))) ∧
    (((build_category (fun _ _ _ => "") [] []
        ⟨none, "T", "S", [⟨some "Sub1", []⟩, ⟨some "Sub2", []⟩]⟩).1).body).map Prod.fst =
      ["summary", "Sub1", "Sub2"] ∧
    ((build_features (fun _ _ _ => "") [] [] []
        [⟨none, some "P1", some "S1"⟩, ⟨none, some "P2", some "S2"⟩]).1).map Prod.fst =
      ["P1", "P2"] := by
  refine ⟨c8_order_mirrors_document_order.1 inpW [] outW [(some "p2", "Filled reply")] rfl,
    ?_, ?_⟩
  · have h := c8_order_mirrors_document_order.2.2.2.1 (fun _ _ _ => "") [] []
      ⟨none, "T", "S", [⟨some "Sub1", []⟩, ⟨some "Sub2", []⟩]⟩ (by decide) (by decide)
    exact h.trans (by rfl)
  · have h := c8_order_mirrors_document_order.2.2.2.2 (fun _ _ _ => "") [] []
      [⟨none, some "P1", some "S1"⟩, ⟨none, some "P2", some "S2"⟩] (by decide)
    exact h.trans (by rfl)

/-! ## C9 — Replacement Store round-trip -/

theorem hexVal?_hexDigit (n : Nat) (h : n < 16) : hexVal? (hexDigit n) = some n := by
  interval_cases n <;> rfl

theorem parseStrBody_escBody :
    ∀ (s : List Char) (t : List Char),
      parseStrBody (escBody s ++ '"' :: t) = some (s, t) := by
  intro s
  induction s with
  | nil =>
    intro t
    show parseStrBody ('"' :: t) = some ([], t)
    rw [parseStrBody.eq_def]
    simp
  | cons c s' ih =>
    intro t
    have hesc : escBody (c :: s') = escChar c ++ escBody s' := by
      simp [escBody]
    rw [hesc, List.append_assoc]
    by_cases h1 : c = '\\'
    · subst h1
      rw [show escChar '\\' = ['\\', '\\'] from rfl]
      simp only [List.cons_append, List.nil_append]
      rw [parseStrBody.eq_def]
      simp [unescape1, ih t]
    · by_cases h2 : c = '"'
      · subst h2
        rw [show escChar '"' = ['\\', '"'] from rfl]
        simp only [List.cons_append, List.nil_append]
        rw [parseStrBody.eq_def]
        simp [unescape1, ih t]
      · by_cases h3 : c = Char.ofNat 8
        · subst h3
          rw [show escChar (Char.ofNat 8) = ['\\', 'b'] from rfl]
          simp only [List.cons_append, List.nil_append]
          rw [parseStrBody.eq_def]
          simp [unescape1, ih t]
        · by_cases h4 : c = Char.ofNat 12
          · subst h4
            rw [show escChar (Char.ofNat 12) = ['\\', 'f'] from rfl]
            simp only [List.cons_append, List.nil_append]
            rw [parseStrBody.eq_def]
            simp [unescape1, ih t]
          · by_cases h5 : c = '\n'
            · subst h5
              rw [show escChar '\n' = ['\\', 'n'] from rfl]
              simp only [List.cons_append, List.nil_append]
              rw [parseStrBody.eq_def]
              simp [unescape1, ih t]
            · by_cases h6 : c = '\r'
              · subst h6
                rw [show escChar '\r' = ['\\', 'r'] from rfl]
                simp only [List.cons_append, List.nil_append]
                rw [parseStrBody.eq_def]
                simp [unescape1, ih t]
              · by_cases h7 : c = '\t'
                · subst h7
                  rw [show escChar '\t' = ['\\', 't'] from rfl]
                  simp only [List.cons_append, List.nil_append]
                  rw [parseStrBody.eq_def]
                  simp [unescape1, ih t]
                · by_cases h8 : c.toNat < 32
                  · have hesc2 : escChar c =
                        ['\\', 'u', '0', '0', hexDigit (c.toNat / 16), hexDigit (c.toNat % 16)] := by
                      simp [escChar, h1, h2, h3, h4, h5, h6, h7, h8]
                    rw [hesc2]
                    have hhi : hexVal? (hexDigit (c.toNat / 16)) = some (c.toNat / 16) :=
                      hexVal?_hexDigit _ (by omega)
                    have hlo : hexVal? (hexDigit (c.toNat % 16)) = some (c.toNat % 16) :=
                      hexVal?_hexDigit _ (by omega)
                    have hn' : c.toNat / 16 * 16 + c.toNat % 16 = c.toNat := by omega
                    have hng : ¬(55296 ≤ c.toNat ∧ c.toNat < 57344) := by omega
                    simp only [List.cons_append, List.nil_append]
                    rw [parseStrBody.eq_def]
                    simp [show hexVal? (Char.ofNat 48) = some 0 from rfl, hhi, hlo, hn', hng, ih t, Char.ofNat_toNat]
                  · have hesc2 : escChar c = [c] := by
                      simp [escChar, h1, h2, h3, h4, h5, h6, h7, h8]
                    rw [hesc2]
                    simp only [List.cons_append, List.nil_append]
                    rw [parseStrBody.eq_def]
                    simp [h1, h2, h8, ih t]

theorem jws_not_ws (c : Char) (h : isJsonWs c = false) (l : List Char) :
    jws (c :: l) = c :: l := by
  simp [jws, List.dropWhile_cons, h]

theorem jws_cons_ws (c : Char) (h : isJsonWs c = true) (l : List Char) :
    jws (c :: l) = jws l := by
  simp [jws, List.dropWhile_cons, h]

theorem jws_all_ws :
    ∀ (ws : List Char), (∀ c ∈ ws, isJsonWs c = true) → ∀ (l : List Char),
      jws (ws ++ l) = jws l := by
  intro ws
  induction ws with
  | nil => intro _ l; rfl
  | cons c rest ih =>
    intro h l
    rw [List.cons_append, jws_cons_ws c (h c (by simp)), ih (fun c' hc' => h c' (by simp [hc']))]

theorem parsePair_printed (ws0 : List Char) (hws : ∀ c ∈ ws0, isJsonWs c = true)
    (k v : String) (t : List Char) :
    parsePair (ws0 ++ dumpItem (some k, v) ++ t) = some ((some k, v), t) := by
  have hitem : dumpItem (some k, v) ++ t =
      [' ', ' ', ' ', ' '] ++
        ('"' :: (escBody k.data ++
          '"' :: ':' :: ' ' :: '"' :: (escBody v.data ++ '"' :: t))) := by
    simp [dumpItem, qstr, keyChars]
  rw [List.append_assoc, hitem, ← List.append_assoc]
  have hws' : ∀ c ∈ ws0 ++ [' ', ' ', ' ', ' '], isJsonWs c = true := by
    intro c hc
    rcases List.mem_append.mp hc with h | h
    · exact hws c h
    · obtain rfl : c = ' ' := by simpa using h
      rfl
  unfold parsePair
  rw [jws_all_ws _ hws']
  simp [jws_not_ws, jws_cons_ws, isJsonWs, parseStrBody_escBody]

theorem dumpItemsRest_len : ∀ (ps : Repl), ps.length ≤ (dumpItemsRest ps).length := by
  intro ps
  induction ps with
  | nil => simp [dumpItemsRest]
  | cons p ps ih =>
    simp only [dumpItemsRest, List.length_cons, List.length_append]
    omega

theorem newline_ws : ∀ c ∈ ['\n'], isJsonWs c = true := by
  intro c hc
  obtain rfl : c = '\n' := by simpa using hc
  rfl

theorem parseMembersRest_printed :
    ∀ (ps : Repl) (fuel : Nat), ps.length < fuel →
      (∀ p ∈ ps, ∃ k, p.1 = some k) →
      parseMembersRest fuel (dumpItemsRest ps ++ ['\n', '}', '\n']) = some (ps, ['\n']) := by
  intro ps
  induction ps with
  | nil =>
    intro fuel hf _
    rcases fuel with _ | f
    · omega
    · show parseMembersRest (f + 1) ([] ++ ['\n', '}', '\n']) = _
      rw [List.nil_append, parseMembersRest,
        jws_cons_ws _ (by decide), jws_not_ws _ (by decide)]
      rfl
  | cons p ps' ih =>
    intro fuel hf hkeys
    rcases fuel with _ | f
    · omega
    rcases hkeys p (by simp) with ⟨k, hk⟩
    obtain ⟨k1, v⟩ := p
    simp only at hk
    subst hk
    show parseMembersRest (f + 1)
      ((',' :: '\n' :: dumpItem (some k, v) ++ dumpItemsRest ps') ++ ['\n', '}', '\n']) = _
    have hsh : ((',' :: '\n' :: dumpItem (some k, v) ++ dumpItemsRest ps') ++ ['\n', '}', '\n'])
        = ',' :: (['\n'] ++ dumpItem (some k, v) ++ (dumpItemsRest ps' ++ ['\n', '}', '\n'])) := by
      simp
    simp only [List.length_cons] at hf
    rw [hsh, parseMembersRest, jws_not_ws _ (by decide)]
    dsimp only
    rw [if_pos rfl, parsePair_printed ['\n'] newline_ws k v]
    dsimp only
    rw [ih f (by omega) (fun q hq => hkeys q (by simp [hq]))]

theorem parseTopObject_printed (p : Option String × String) (ps : Repl)
    (hkeys : ∀ q ∈ p :: ps, ∃ k, q.1 = some k) :
    parseTopObject (dumpFile (p :: ps)) = some (p :: ps) := by
  rcases hkeys p (by simp) with ⟨k, hk⟩
  obtain ⟨k1, v⟩ := p
  simp only at hk
  subst hk
  have hdf : dumpFile ((some k, v) :: ps) =
      '{' :: ('\n' :: (dumpItem (some k, v) ++ (dumpItemsRest ps ++ ['\n', '}', '\n']))) := by
    simp [dumpFile]
  have hitem : dumpItem (some k, v) ++ (dumpItemsRest ps ++ ['\n', '}', '\n']) =
      [' ', ' ', ' ', ' '] ++
        ('"' :: (escBody k.data ++
          '"' :: ':' :: ' ' :: '"' :: (escBody v.data ++
            '"' :: (dumpItemsRest ps ++ ['\n', '}', '\n'])))) := by
    simp [dumpItem, qstr, keyChars]
  have hlen : ps.length < (dumpFile ((some k, v) :: ps)).length := by
    have h1 := dumpItemsRest_len ps
    rw [hdf]
    simp only [List.length_cons, List.length_append]
    omega
  unfold parseTopObject
  rw [hdf, jws_not_ws _ (by decide)]
  dsimp only
  rw [if_pos rfl]
  have hjws : jws ('\n' :: (dumpItem (some k, v) ++ (dumpItemsRest ps ++ ['\n', '}', '\n']))) =
      '"' :: (escBody k.data ++
        '"' :: ':' :: ' ' :: '"' :: (escBody v.data ++
          '"' :: (dumpItemsRest ps ++ ['\n', '}', '\n']))) := by
    rw [jws_cons_ws _ (by decide), hitem, jws_all_ws _ ?_, jws_not_ws _ (by decide)]
    intro c hc
    obtain rfl : c = ' ' := by simpa using hc
    rfl
  rw [hjws]
  dsimp only
  rw [if_neg (by decide)]
  have hpair : parsePair
      ('\n' :: (dumpItem (some k, v) ++ (dumpItemsRest ps ++ ['\n', '}', '\n']))) =
      some ((some k, v), dumpItemsRest ps ++ ['\n', '}', '\n']) := by
    have hsh : ('\n' :: (dumpItem (some k, v) ++ (dumpItemsRest ps ++ ['\n', '}', '\n']))) =
        ['\n'] ++ dumpItem (some k, v) ++ (dumpItemsRest ps ++ ['\n', '}', '\n']) := by
      simp
    rw [hsh, parsePair_printed ['\n'] newline_ws k v]
  rw [hpair]
  dsimp only
  rw [parseMembersRest_printed ps _ (by rw [hdf] at hlen; simpa using hlen)
    (fun q hq => hkeys q (by simp [hq]))]
  dsimp only
  rw [jws_cons_ws _ (by decide)]
  rfl

/-- **C9** (confirmed).  Replacement Store round-trip: for every mapping
from strings to strings (every key present, no duplicate keys — a Python
dict by construction), saving with `save_replacements` and loading the
written text back with `load_replacements` returns the same mapping,
escape sequences and all. -/
theorem c9_replacement_store_roundtrip (m : Repl) (hkeys : ∀ p ∈ m, ∃ k, p.1 = some k)
    (hnd : (m.map Prod.fst).Nodup) :
    load_replacements (some (save_replacements m)) = m := by
  rcases m with _ | ⟨p, ps⟩
  · rfl
  · unfold load_replacements save_replacements
    dsimp only
    rw [parseTopObject_printed p ps hkeys]
    exact pyDictOfList_eq_self _ hnd

/-- Witness for C9 at a store exercising quote, backslash, control and
non-ASCII characters. -/
theorem c9_replacement_store_roundtrip_witness :
    load_replacements (some (save_replacements
      [(some "a", "x\"y\\z"), (some "b", ""), (some "c", "naïve\n")])) =
      [(some "a", "x\"y\\z"), (some "b", ""), (some "c", "naïve\n")] :=
  c9_replacement_store_roundtrip _ (by
    intro p hp
    simp only [List.mem_cons, List.not_mem_nil, or_false] at hp
    rcases hp with rfl | rfl | rfl
    · exact ⟨"a", rfl⟩
    · exact ⟨"b", rfl⟩
    · exact ⟨"c", rfl⟩) (by decide)

end UpdateFeatures
